import Mathlib

/-!
Shallow embedding of the SARIF output formatter of the gosec/gas repository
(`output/sarif_format.go`) together with proofs of the specification claims.

Go strings are modelled as `List Char`; Go `int` as `Int` (64-bit range checks
appear where the source library enforces them); Go's `(T, error)` return shape
as `Except`.
-/

set_option autoImplicit false

/-- Go strings are modelled as lists of characters. -/
abbrev GoString := List Char

/-- Converts a Lean string literal to the `GoString` model. -/
def gs (s : String) : GoString := s.toList

/-! ### Go standard library models -/

/-- Model of `strings.Split(s, sep)` for a one-character separator `sep`.
Go returns the substrings between occurrences of the separator; the result is
never empty (`Split("", sep) = [""]`). -/
def goSplit : GoString → Char → List GoString
  | [], _ => [[]]
  | c :: t, sep =>
    if c = sep then [] :: goSplit t sep
    else
      match goSplit t sep with
      | [] => [[c]]
      | h :: r => (c :: h) :: r

/-- Decides whether a character is an ASCII decimal digit. -/
def isDigit (c : Char) : Bool := '0' ≤ c && c ≤ '9'

/-- Numeric value of a digit string, most significant digit first. -/
def digitsVal (l : List Char) : Nat :=
  l.foldl (fun n c => n * 10 + (c.toNat - '0'.toNat)) 0

/-- The two error kinds `strconv.Atoi` can produce, each carrying the
offending input string (Go's `*strconv.NumError` with `Func = "Atoi"`). -/
inductive NumError where
  | syntaxError (num : GoString)
  | rangeError (num : GoString)
  deriving DecidableEq, Repr

/-- Largest value of Go's 64-bit `int`. -/
def intMax64 : Int := 9223372036854775807

/-- Smallest value of Go's 64-bit `int`. -/
def intMin64 : Int := -9223372036854775808

/-- Model of `strconv.Atoi` on a 64-bit platform: an optional sign followed by
one or more decimal digits, rejected with a range error outside `int64`. -/
def goAtoi (s : GoString) : Except NumError Int :=
  let neg : Bool :=
    match s with
    | c :: _ => c = '-'
    | [] => false
  let digits : List Char :=
    match s with
    | c :: t => if c = '-' ∨ c = '+' then t else s
    | [] => []
  if digits = [] then .error (.syntaxError s)
  else if digits.all isDigit then
    let n : Int := if neg then -(digitsVal digits : Int) else (digitsVal digits : Int)
    if n < intMin64 ∨ intMax64 < n then .error (.rangeError s) else .ok n
  else .error (.syntaxError s)

/-- Model of `strings.Index(s, sub)`: position of the first occurrence of
`sub` in `s`, or `none`. -/
def goIndex : GoString → GoString → Option Nat
  | s, sub =>
    if sub.isPrefixOf s then some 0
    else
      match s with
      | [] => none
      | _ :: t => (goIndex t sub).map (· + 1)

/-- Model of `strings.Replace(s, old, new, 1)`: replace the first occurrence
of `old` in `s` by `new`; `s` unchanged when `old` does not occur. -/
def goReplace1 (s old new : GoString) : GoString :=
  match goIndex s old with
  | none => s
  | some i => s.take i ++ new ++ s.drop (i + old.length)

/-! ### External data carried by a finding -/

/-- CWE reference attached to a finding (`issue.Cwe`): identifier and URL. -/
structure CweInfo where
  ID : GoString
  URL : GoString
  deriving DecidableEq, Repr

/-- One finding (`gosec.Issue`), restricted to the fields the SARIF formatter
reads; `Severity` and `Confidence` hold the result of the Go `String()`
method of the respective score. -/
structure Issue where
  File : GoString
  Line : GoString
  Col : GoString
  RuleID : GoString
  What : GoString
  Severity : GoString
  Confidence : GoString
  Cwe : CweInfo
  deriving DecidableEq, Repr

/-- A weakness catalog entry (`cwe.Weakness`): identifier, name, description. -/
structure Weakness where
  ID : GoString
  Name : GoString
  Description : GoString
  deriving DecidableEq, Repr

/-- The zero value of `cwe.Weakness`, produced by a Go map access on a
missing key. -/
def zeroWeakness : Weakness := { ID := [], Name := [], Description := [] }

/-- Modelled from the spec: the external weakness catalog lookup `cwe.Get`
(the `cwe` package is not part of the sources under verification). The spec
assumes it total — every identifier yields an entry, unknown ones a
placeholder — and no claim below depends on the concrete entries. -/
def cweGet (id : GoString) : Weakness :=
  { ID := id, Name := gs "Weakness-" ++ id, Description := gs "Description-" ++ id }

/-- Modelled from the spec: `uuid3` wraps the external
`uuid.NewMD5(uuid.Nil, value).String()`, a deterministic content-keyed
identifier (fixed namespace plus the name string). The MD5 digest is
abstracted by an injective encoding; determinism and content-keying are what
the claims use. -/
def uuid3 (value : GoString) : GoString := gs "uuid3:" ++ value

/-- Modelled from the spec: the tool version string read from build metadata
(`debug.ReadBuildInfo`), a fixed fallback when unavailable; constant within
any run, so modelled as a constant. -/
def gosecVersion : GoString := gs "devel"

/-! ### SARIF document model (the fields the formatter populates) -/

/-- The `sarifLevel` string constants. -/
def sarifNone : GoString := gs "none"

/-- SARIF level `note`. -/
def sarifNote : GoString := gs "note"

/-- SARIF level `warning`. -/
def sarifWarning : GoString := gs "warning"

/-- SARIF level `error`. -/
def sarifError : GoString := gs "error"

/-- The classification scheme acronym constant `cweAcronym`. -/
def cweAcronym : GoString := gs "CWE"

/-- Embeds `sarif.MultiformatMessageString`. -/
structure MultiformatMessageString where
  Text : GoString
  deriving DecidableEq, Repr

/-- Embeds `sarif.Message`. -/
structure Message where
  Text : GoString
  deriving DecidableEq, Repr

/-- Embeds `sarif.PropertyBag` (only `Tags` is used). -/
structure PropertyBag where
  Tags : List GoString
  deriving DecidableEq, Repr

/-- Embeds `sarif.ReportingConfiguration` (only `Level` is used). -/
structure ReportingConfiguration where
  Level : GoString
  deriving DecidableEq, Repr

/-- Embeds `sarif.ToolComponentReference`. -/
structure ToolComponentReference where
  Name : GoString := []
  Index : Int := 0
  Guid : GoString := []
  deriving DecidableEq, Repr

/-- Embeds `sarif.ReportingDescriptorReference` (target of a relationship). -/
structure ReportingDescriptorReference where
  Id : GoString := []
  Guid : GoString := []
  ToolComponent : ToolComponentReference
  deriving DecidableEq, Repr

/-- Embeds `sarif.ReportingDescriptorRelationship`. -/
structure ReportingDescriptorRelationship where
  Target : ReportingDescriptorReference
  Kinds : List GoString
  deriving DecidableEq, Repr

/-- Embeds `sarif.ReportingDescriptor`; rules and taxa populate different subsets of
its fields, the rest keep Go zero values. -/
structure ReportingDescriptor where
  Id : GoString
  Name : GoString
  Guid : GoString := []
  HelpUri : GoString := []
  ShortDescription : Option MultiformatMessageString := none
  FullDescription : Option MultiformatMessageString := none
  Help : Option MultiformatMessageString := none
  Properties : Option PropertyBag := none
  DefaultConfiguration : Option ReportingConfiguration := none
  Relationships : List ReportingDescriptorRelationship := []
  deriving DecidableEq, Repr

/-- Embeds `sarif.ArtifactLocation` (only `Uri` is used). -/
structure ArtifactLocation where
  Uri : GoString
  deriving DecidableEq, Repr

/-- Embeds `sarif.Region`. -/
structure Region where
  StartLine : Int
  EndLine : Int
  StartColumn : Int
  EndColumn : Int
  deriving DecidableEq, Repr

/-- Embeds `sarif.PhysicalLocation`. -/
structure PhysicalLocation where
  ArtifactLocation : ArtifactLocation
  Region : Region
  deriving DecidableEq, Repr

/-- Embeds `sarif.Location`. -/
structure Location where
  PhysicalLocation : PhysicalLocation
  deriving DecidableEq, Repr

/-- Embeds `sarif.Result`. -/
structure Result where
  RuleId : GoString
  RuleIndex : Int
  Level : GoString
  Message : Message
  Locations : List Location
  deriving DecidableEq, Repr

/-- Embeds `sarif.ToolComponent`. -/
structure ToolComponent where
  Name : GoString := []
  Version : GoString := []
  ReleaseDateUtc : GoString := []
  InformationUri : GoString := []
  DownloadUri : GoString := []
  Organization : GoString := []
  ShortDescription : Option MultiformatMessageString := none
  Guid : GoString := []
  IsComprehensive : Bool := false
  MinimumRequiredLocalizedDataSemanticVersion : GoString := []
  Taxa : List ReportingDescriptor := []
  SupportedTaxonomies : List ToolComponentReference := []
  Rules : List ReportingDescriptor := []
  deriving DecidableEq, Repr

/-- Embeds `sarif.Tool`. -/
structure Tool where
  Driver : ToolComponent
  deriving DecidableEq, Repr

/-- Embeds `sarif.Run`. -/
structure Run where
  Results : List Result
  Taxonomies : List ToolComponent
  Tool : Tool
  deriving DecidableEq, Repr

/-- Embeds `sarif.StaticAnalysisResultsFormatSARIFVersion210JSONSchema`. -/
structure SarifDocument where
  Version : GoString
  Schema : GoString
  Runs : List Run
  deriving DecidableEq, Repr

/-- The `reportInfo` input: the ordered list of findings. -/
structure ReportInfo where
  Issues : List Issue
  deriving DecidableEq, Repr

/-! ### The formatter (`output/sarif_format.go`) -/

/-- Embeds `getSarifLevel`: the severity-string to SARIF-level switch. -/
def getSarifLevel (s : GoString) : GoString :=
  if s = gs "LOW" then sarifWarning
  else if s = gs "MEDIUM" then sarifError
  else if s = gs "HIGH" then sarifError
  else sarifNote

/-- Embeds `buildSarifReport`. -/
def buildSarifReport (run : Run) : SarifDocument :=
  { Version := gs "2.1.0"
    Schema := gs "https://raw.githubusercontent.com/oasis-tcs/sarif-spec/master/Schemata/sarif-schema-2.1.0.json"
    Runs := [run] }

/-- Embeds `buildSarifReportingDescriptorRelationship`. -/
def buildSarifReportingDescriptorRelationship (weakness : Weakness) :
    ReportingDescriptorRelationship :=
  { Target :=
      { Id := weakness.ID
        Guid := uuid3 weakness.Name
        ToolComponent := { Name := cweAcronym } }
    Kinds := [gs "superset"] }

/-- Embeds `parseSarifRule`: the rule descriptor built from one finding and its
weakness. -/
def parseSarifRule (issue : Issue) (weakness : Weakness) : ReportingDescriptor :=
  { Id := issue.RuleID
    Name := issue.What
    ShortDescription := some { Text := issue.What }
    FullDescription := some { Text := issue.What }
    Help := some { Text := issue.What ++ gs "\nSeverity: " ++ issue.Severity
                     ++ gs "\nConfidence: " ++ issue.Confidence ++ gs "\n" }
    Properties := some { Tags := [gs "CWE-" ++ issue.Cwe.ID, issue.Severity] }
    DefaultConfiguration := some { Level := getSarifLevel issue.Severity }
    Relationships := [buildSarifReportingDescriptorRelationship weakness] }

/-- Embeds `buildSarifTool`. -/
def buildSarifTool (driver : ToolComponent) : Tool := { Driver := driver }

/-- Embeds `buildSarifTaxon`. -/
def buildSarifTaxon (id name uri description : GoString) : ReportingDescriptor :=
  { Id := id
    Name := name
    Guid := uuid3 name
    HelpUri := uri
    ShortDescription := some { Text := description } }

/-- Embeds `parseSarifTaxon`. -/
def parseSarifTaxon (weakness : Weakness) (url : GoString) : ReportingDescriptor :=
  buildSarifTaxon weakness.ID weakness.Name url weakness.Description

/-- Embeds `buildSarifTaxonomies`: the single CWE taxonomy component. -/
def buildSarifTaxonomies (taxa : List ReportingDescriptor) : List ToolComponent :=
  [{ Name := cweAcronym
     Version := gs "4.4"
     ReleaseDateUtc := gs "2021-03-15"
     InformationUri := gs "https://cwe.mitre.org/data/published/cwe_v" ++ gs "4.4" ++ gs ".pdf/"
     DownloadUri := gs "https://cwe.mitre.org/data/xml/cwec_v" ++ gs "4.4" ++ gs ".xml.zip"
     Organization := gs "MITRE"
     ShortDescription := some { Text := gs "The MITRE Common Weakness Enumeration" }
     Guid := uuid3 cweAcronym
     IsComprehensive := true
     MinimumRequiredLocalizedDataSemanticVersion := gs "4.4"
     Taxa := taxa }]

/-- Embeds `buildSarifDriver`. -/
def buildSarifDriver (rules : List ReportingDescriptor) : ToolComponent :=
  { Name := gs "gosec"
    Version := gosecVersion
    SupportedTaxonomies := [{ Name := cweAcronym, Index := 1, Guid := uuid3 cweAcronym }]
    InformationUri := gs "https://github.com/securego/gosec/"
    Rules := rules }

/-- Embeds `buildSarifRun`. -/
def buildSarifRun (results : List Result) (taxonomies : List ToolComponent)
    (tool : Tool) : Run :=
  { Results := results, Taxonomies := taxonomies, Tool := tool }

/-- Embeds `buildSarifLocation`. -/
def buildSarifLocation (physicalLocation : PhysicalLocation) : Location :=
  { PhysicalLocation := physicalLocation }

/-- Embeds `buildSarifPhysicalLocation`. -/
def buildSarifPhysicalLocation (artifactLocation : ArtifactLocation)
    (region : Region) : PhysicalLocation :=
  { ArtifactLocation := artifactLocation, Region := region }

/-- Embeds `parseSarifArtifactLocation`. -/
def parseSarifArtifactLocation (filePath : GoString) : ArtifactLocation :=
  { Uri := filePath }

/-- Embeds `parseSarifRegion`: the single column value is stored as both start and
end column. -/
def parseSarifRegion (startLine endLine col : Int) : Region :=
  { StartLine := startLine, EndLine := endLine, StartColumn := col, EndColumn := col }

/-- The root-path loop of `parseSarifLocation` (lines 206 and 226–230):
`filePath` starts empty and each root that passes the `HasPrefix` test
overwrites it with `strings.Replace(issue.File, rootPath+"/", "", 1)`. -/
def relativizePath (file : GoString) (rootPaths : List GoString) : GoString :=
  rootPaths.foldl
    (fun filePath rootPath =>
      if rootPath.isPrefixOf file then goReplace1 file (rootPath ++ ['/']) []
      else filePath)
    []

/-- Embeds `parseSarifLocation`: parse line spec and column, relativize the file
path, and assemble the SARIF location; any `Atoi` failure aborts. -/
def parseSarifLocation (issue : Issue) (rootPaths : List GoString) :
    Except NumError Location :=
  let lines := goSplit issue.Line '-'
  match goAtoi (lines.headD []) with
  | .error e => .error e
  | .ok startLine =>
    match (match lines with
           | _ :: l1 :: _ => goAtoi l1
           | _ => .ok startLine : Except NumError Int) with
    | .error e => .error e
    | .ok endLine =>
      match goAtoi issue.Col with
      | .error e => .error e
      | .ok col =>
        .ok (buildSarifLocation (buildSarifPhysicalLocation
          (parseSarifArtifactLocation (relativizePath issue.File rootPaths))
          (parseSarifRegion startLine endLine col)))

/-- The per-rule record kept in `rulesIndices` (the local `rule` struct of
`convertToSarifReport`). -/
structure RuleEntry where
  index : Int
  rule : ReportingDescriptor
  deriving DecidableEq, Repr

/-- Lookup in a Go map modelled as an association list (newest entry first). -/
def mapGet {α : Type} : List (GoString × α) → GoString → Option α
  | [], _ => none
  | (k2, v) :: t, k => if k2 = k then some v else mapGet t k

/-- The mutable state of the loop in `convertToSarifReport`. -/
structure ConvState where
  rules : List ReportingDescriptor
  rulesIndices : List (GoString × RuleEntry)
  lastRuleIndex : Int
  results : List Result
  taxa : List ReportingDescriptor
  weaknesses : List (GoString × Weakness)
  deriving Repr

/-- The state before the loop of `convertToSarifReport` runs. -/
def initConvState : ConvState :=
  { rules := [], rulesIndices := [], lastRuleIndex := -1
    results := [], taxa := [], weaknesses := [] }

/-- The weakness/taxon phase of one loop iteration (lines 41–47): on first
occurrence of a weakness identifier, cache the catalog lookup and append the
taxon. -/
def stepWeakness (st : ConvState) (issue : Issue) : ConvState :=
  if (mapGet st.weaknesses issue.Cwe.ID).isSome then st
  else
    let weakness := cweGet issue.Cwe.ID
    { st with
      weaknesses := (issue.Cwe.ID, weakness) :: st.weaknesses
      taxa := st.taxa ++ [parseSarifTaxon weakness issue.Cwe.URL] }

/-- The rule-registry phase of one loop iteration (lines 49–55): look up the
rule identifier, registering a new descriptor with the next index when
absent; returns the updated state and the entry used for the result. -/
def stepRule (st : ConvState) (issue : Issue) : ConvState × RuleEntry :=
  match mapGet st.rulesIndices issue.RuleID with
  | some r => (st, r)
  | none =>
    let newIndex := st.lastRuleIndex + 1
    let r : RuleEntry :=
      { index := newIndex
        rule := parseSarifRule issue
          ((mapGet st.weaknesses issue.Cwe.ID).getD zeroWeakness) }
    ({ st with
        lastRuleIndex := newIndex
        rulesIndices := (issue.RuleID, r) :: st.rulesIndices
        rules := st.rules ++ [r.rule] }, r)

/-- One iteration of the loop of `convertToSarifReport` (lines 40–73). -/
def convertStep (rootPaths : List GoString) (st : ConvState) (issue : Issue) :
    Except NumError ConvState :=
  let st1 := stepWeakness st issue
  let st2r := stepRule st1 issue
  match parseSarifLocation issue rootPaths with
  | .error e => .error e
  | .ok location =>
    .ok { st2r.1 with
          results := st2r.1.results ++
            [{ RuleId := st2r.2.rule.Id
               RuleIndex := st2r.2.index
               Level := getSarifLevel issue.Severity
               Message := { Text := issue.What }
               Locations := [location] }] }

/-- The whole loop of `convertToSarifReport`, aborting at the first
location-parse error. -/
def processIssues (rootPaths : List GoString) :
    ConvState → List Issue → Except NumError ConvState
  | st, [] => .ok st
  | st, issue :: rest =>
    match convertStep rootPaths st issue with
    | .error e => .error e
    | .ok st' => processIssues rootPaths st' rest

/-- Embeds `convertToSarifReport`: run the loop, then assemble tool, run and
document; an error yields no document. -/
def convertToSarifReport (rootPaths : List GoString) (data : ReportInfo) :
    Except NumError SarifDocument :=
  match processIssues rootPaths initConvState data.Issues with
  | .error e => .error e
  | .ok st =>
    .ok (buildSarifReport (buildSarifRun st.results
      (buildSarifTaxonomies st.taxa) (buildSarifTool (buildSarifDriver st.rules))))

/-! ### Specification-side characterizations

The definitions below restate, in the spec's vocabulary, what the loop of
`convertToSarifReport` computes: first-occurrence deduplication keyed by a
string, the per-rule index, and the per-finding result record. The theorems
relate them to the embedded source functions above. -/

/-- The rule-registry key of a finding: its rule identifier. -/
def keyOfRule (i : Issue) : GoString := i.RuleID

/-- The taxonomy-registry key of a finding: its weakness identifier. -/
def keyOfCwe (i : Issue) : GoString := i.Cwe.ID

/-- One step of first-occurrence deduplication: keep the accumulator when the
key was already seen, otherwise append the new element. -/
def firstOccStep (key : Issue → GoString) (acc : List Issue) (i : Issue) : List Issue :=
  if key i ∈ acc.map key then acc else acc ++ [i]

/-- The findings retained by first-occurrence deduplication over `key`, in
input order. -/
def firstOccIssues (key : Issue → GoString) (l : List Issue) : List Issue :=
  l.foldl (firstOccStep key) []

/-- The distinct key values of `l`, in first-occurrence order. -/
def firstOccKeys (key : Issue → GoString) (l : List Issue) : List GoString :=
  (firstOccIssues key l).map key

/-- First element satisfying `p` together with its zero-based position. -/
def findWithIdx (p : Issue → Prop) [DecidablePred p] : List Issue → Option (Nat × Issue)
  | [] => none
  | i :: t => if p i then some (0, i) else (findWithIdx p t).map (fun x => (x.1 + 1, x.2))

/-- The rule-registry entry for `rid` after processing `l`: descriptor and
index derived from the first finding carrying `rid`. -/
def ruleEntryModel (l : List Issue) (rid : GoString) : Option RuleEntry :=
  (findWithIdx (fun i => i.RuleID = rid) (firstOccIssues keyOfRule l)).map
    (fun x => { index := (x.1 : Int), rule := parseSarifRule x.2 (cweGet x.2.Cwe.ID) })

/-- The index recorded for rule `rid` (zero-based first-occurrence position). -/
def ruleIndexModel (l : List Issue) (rid : GoString) : Int :=
  match ruleEntryModel l rid with
  | some e => e.index
  | none => 0

/-- The final rule list: one descriptor per distinct rule identifier, built
from the first finding with that identifier and its weakness. -/
def rulesModel (l : List Issue) : List ReportingDescriptor :=
  (firstOccIssues keyOfRule l).map (fun i => parseSarifRule i (cweGet i.Cwe.ID))

/-- The final taxa list: one taxon per distinct weakness identifier, carrying
the reference URL of the first finding with that identifier. -/
def taxaModel (l : List Issue) : List ReportingDescriptor :=
  (firstOccIssues keyOfCwe l).map (fun i => parseSarifTaxon (cweGet i.Cwe.ID) i.Cwe.URL)

/-- Placeholder location (never used on the success path). -/
def defaultLocation : Location :=
  { PhysicalLocation :=
      { ArtifactLocation := { Uri := [] }
        Region := { StartLine := 0, EndLine := 0, StartColumn := 0, EndColumn := 0 } } }

/-- The parsed location of a finding, with a placeholder on parse failure. -/
def locationD (roots : List GoString) (i : Issue) : Location :=
  match parseSarifLocation i roots with
  | .ok loc => loc
  | .error _ => defaultLocation

/-- The result record produced for finding `i` within input `l`. -/
def resultModel (roots : List GoString) (l : List Issue) (i : Issue) : Result :=
  { RuleId := i.RuleID
    RuleIndex := ruleIndexModel l i.RuleID
    Level := getSarifLevel i.Severity
    Message := { Text := i.What }
    Locations := [locationD roots i] }

/-- The final result list, one record per finding in input order. -/
def resultsModel (roots : List GoString) (l : List Issue) : List Result :=
  l.map (resultModel roots l)

/-- The error of the first finding (in input order) whose location fails to
parse, if any. -/
def firstLocError (roots : List GoString) : List Issue → Option NumError
  | [] => none
  | i :: t =>
    match parseSarifLocation i roots with
    | .error e => some e
    | .ok _ => firstLocError roots t

/-- The integer-valued text fields of a finding the location parser consumes:
the first line-spec segment, the second when the split yields more than one
(later segments are ignored), and the column. -/
def usedIntFields (i : Issue) : List GoString :=
  ((goSplit i.Line '-').headD []) ::
    (match goSplit i.Line '-' with
     | _ :: s :: _ => [s]
     | _ => []) ++ [i.Col]

/-- The invariant tying the loop state after processing the findings `pre`
to the specification-side models. -/
structure ConvInv (roots : List GoString) (pre : List Issue) (st : ConvState) : Prop where
  rules_eq : st.rules = rulesModel pre
  last_eq : st.lastRuleIndex = (st.rules.length : Int) - 1
  ridx : ∀ rid, mapGet st.rulesIndices rid = ruleEntryModel pre rid
  weak : ∀ cid, mapGet st.weaknesses cid =
    if cid ∈ pre.map keyOfCwe then some (cweGet cid) else none
  taxa_eq : st.taxa = taxaModel pre
  results_eq : st.results = resultsModel roots pre

/-! ### Concrete sample inputs used in the closed theorems -/

/-- Builds a finding from plain string literals. -/
def mkIssue (file line col rid what sev cid url : String) : Issue :=
  { File := gs file, Line := gs line, Col := gs col, RuleID := gs rid
    What := gs what, Severity := gs sev, Confidence := gs "HIGH"
    Cwe := { ID := gs cid, URL := gs url } }

/-- Sample finding: rule G101, weakness 798, single line. -/
def issueA : Issue :=
  mkIssue "/home/u/proj/pkg/file.go" "1" "2" "G101" "hardcoded credentials" "LOW"
    "798" "https://cwe.mitre.org/798a"

/-- Sample finding: rule G102, weakness 200, line range. -/
def issueB : Issue :=
  mkIssue "/home/u/proj/x.go" "2-3" "4" "G102" "bind all interfaces" "MEDIUM"
    "200" "https://cwe.mitre.org/200a"

/-- Sample finding: same rule G102 as `issueB` but a different weakness. -/
def issueC : Issue :=
  mkIssue "/home/u/proj/y.go" "9" "1" "G102" "bind all interfaces" "HIGH"
    "327" "https://cwe.mitre.org/327a"

/-- Sample finding: repeats weakness 798 with a different reference URL. -/
def issueDup798 : Issue :=
  mkIssue "/home/u/proj/z.go" "7" "8" "G103" "unsafe block" "LOW"
    "798" "https://cwe.mitre.org/798b"

/-- Sample finding with an unparseable line spec. -/
def issueBadLine : Issue :=
  mkIssue "/a/b.go" "x" "1" "G101" "w" "LOW" "798" "u"

/-- Sample finding whose line spec has an unparseable third segment, which
the location parser never reads. -/
def issueTrailing : Issue :=
  mkIssue "/a/b.go" "5-6-bad" "1" "G101" "w" "LOW" "798" "u"

/-- Sample input batch with duplicate rules and weaknesses. -/
def dataABC : ReportInfo := { Issues := [issueA, issueB, issueC, issueDup798] }

/-- Sample input batch whose second finding fails to parse. -/
def dataBad : ReportInfo := { Issues := [issueA, issueBadLine] }

/-- Sample input batch with only the trailing-segment finding. -/
def dataTrailing : ReportInfo := { Issues := [issueTrailing] }

/-- Placeholder document for the `getD` extraction below. -/
def emptyDoc : SarifDocument := { Version := [], Schema := [], Runs := [] }

/-- The document of a successful conversion (placeholder on error), used to
name conversion outputs in closed statements. -/
def convResultD (roots : List GoString) (data : ReportInfo) : SarifDocument :=
  (convertToSarifReport roots data).toOption.getD emptyDoc

/-! ### Lemmas about first-occurrence deduplication -/

theorem firstOccIssues_append (key : Issue → GoString) (l : List Issue) (i : Issue) :
    firstOccIssues key (l ++ [i]) =
      if key i ∈ firstOccKeys key l then firstOccIssues key l
      else firstOccIssues key l ++ [i] := by
  simp [firstOccIssues, firstOccKeys, List.foldl_append, firstOccStep]

theorem mem_map_foldl_firstOcc (key : Issue → GoString) (k : GoString) :
    ∀ (l acc : List Issue),
      (k ∈ (l.foldl (firstOccStep key) acc).map key ↔ k ∈ acc.map key ∨ k ∈ l.map key)
  | [], acc => by simp
  | i :: t, acc => by
    simp only [List.foldl_cons, List.map_cons, List.mem_cons]
    rw [firstOccStep]
    by_cases h : key i ∈ acc.map key
    · rw [if_pos h, mem_map_foldl_firstOcc key k t acc]
      constructor
      · tauto
      · rintro (ha | he | ht)
        · exact Or.inl ha
        · exact Or.inl (he ▸ h)
        · exact Or.inr ht
    · rw [if_neg h, mem_map_foldl_firstOcc key k t (acc ++ [i])]
      simp only [List.map_append, List.mem_append, List.map_cons, List.mem_singleton,
        List.map_nil]
      tauto

theorem mem_firstOccKeys (key : Issue → GoString) (l : List Issue) (k : GoString) :
    k ∈ firstOccKeys key l ↔ k ∈ l.map key := by
  rw [firstOccKeys, firstOccIssues, mem_map_foldl_firstOcc]
  simp

theorem nodup_map_foldl_firstOcc (key : Issue → GoString) :
    ∀ (l acc : List Issue), (acc.map key).Nodup →
      ((l.foldl (firstOccStep key) acc).map key).Nodup
  | [], acc, h => h
  | i :: t, acc, h => by
    simp only [List.foldl_cons]
    rw [firstOccStep]
    by_cases hm : key i ∈ acc.map key
    · rw [if_pos hm]
      exact nodup_map_foldl_firstOcc key t acc h
    · rw [if_neg hm]
      refine nodup_map_foldl_firstOcc key t (acc ++ [i]) ?_
      simp only [List.map_append, List.map_cons, List.map_nil]
      exact List.Nodup.append h (List.nodup_singleton _) (by
        intro a ha hb
        simp only [List.mem_singleton] at hb
        exact hm (hb ▸ ha))

theorem nodup_firstOccKeys (key : Issue → GoString) (l : List Issue) :
    (firstOccKeys key l).Nodup :=
  nodup_map_foldl_firstOcc key l [] (by simp)

theorem mem_foldl_firstOcc (key : Issue → GoString) (x : Issue) :
    ∀ (l acc : List Issue), x ∈ l.foldl (firstOccStep key) acc → x ∈ acc ∨ x ∈ l
  | [], acc, h => Or.inl h
  | i :: t, acc, h => by
    simp only [List.foldl_cons] at h
    rw [firstOccStep] at h
    by_cases hm : key i ∈ acc.map key
    · rw [if_pos hm] at h
      rcases mem_foldl_firstOcc key x t acc h with ha | ht
      · exact Or.inl ha
      · exact Or.inr (List.mem_cons_of_mem _ ht)
    · rw [if_neg hm] at h
      rcases mem_foldl_firstOcc key x t (acc ++ [i]) h with ha | ht
      · rcases List.mem_append.mp ha with ha' | hi
        · exact Or.inl ha'
        · simp only [List.mem_singleton] at hi
          exact Or.inr (hi ▸ List.mem_cons_self _ _)
      · exact Or.inr (List.mem_cons_of_mem _ ht)

theorem firstOccIssues_subset (key : Issue → GoString) (l : List Issue) (x : Issue)
    (h : x ∈ firstOccIssues key l) : x ∈ l := by
  rcases mem_foldl_firstOcc key x l [] h with h0 | h1
  · simp at h0
  · exact h1

/-! ### Lemmas about `findWithIdx` and the registry models -/

theorem findWithIdx_append_single (p : Issue → Prop) [DecidablePred p] :
    ∀ (l : List Issue) (i : Issue),
      findWithIdx p (l ++ [i]) =
        match findWithIdx p l with
        | some x => some x
        | none => if p i then some (l.length, i) else none
  | [], i => by
    by_cases h : p i <;> simp [findWithIdx, h]
  | j :: t, i => by
    by_cases h : p j
    · simp [findWithIdx, h]
    · simp only [List.cons_append, findWithIdx, if_neg h, List.append_eq]
      rw [findWithIdx_append_single p t i]
      cases ht : findWithIdx p t with
      | some x => simp
      | none =>
        by_cases hi : p i <;> simp [hi, List.length_cons]

theorem findWithIdx_eq_none (p : Issue → Prop) [DecidablePred p] :
    ∀ l : List Issue, findWithIdx p l = none ↔ ∀ x ∈ l, ¬ p x
  | [] => by simp [findWithIdx]
  | i :: t => by
    by_cases h : p i
    · simp [findWithIdx, h]
    · simp [findWithIdx, h, findWithIdx_eq_none p t]

theorem findWithIdx_some (p : Issue → Prop) [DecidablePred p] :
    ∀ (l : List Issue) (n : Nat) (x : Issue), findWithIdx p l = some (n, x) →
      ∃ h : n < l.length, l.get ⟨n, h⟩ = x ∧ p x
  | [], n, x, h => by simp [findWithIdx] at h
  | i :: t, n, x, h => by
    simp only [findWithIdx] at h
    by_cases hp : p i
    · rw [if_pos hp] at h
      have h' := Option.some.inj h
      have h1 : 0 = n := congrArg Prod.fst h'
      have h2 : i = x := congrArg Prod.snd h'
      subst h1; subst h2
      exact ⟨Nat.succ_pos _, rfl, hp⟩
    · rw [if_neg hp] at h
      cases ht : findWithIdx p t with
      | none => rw [ht] at h; simp at h
      | some y =>
        rw [ht] at h
        have h' : some ((y.1 + 1, y.2) : Nat × Issue) = some (n, x) := h
        have h'' := Option.some.inj h'
        have h1 : y.1 + 1 = n := congrArg Prod.fst h''
        have h2 : y.2 = x := congrArg Prod.snd h''
        obtain ⟨hlt, hget, hpx⟩ := findWithIdx_some p t y.1 y.2 ht
        subst h1; subst h2
        exact ⟨Nat.succ_lt_succ hlt, hget, hpx⟩

theorem findWithIdx_isSome_iff (p : Issue → Prop) [DecidablePred p] (l : List Issue) :
    (findWithIdx p l).isSome ↔ ∃ x ∈ l, p x := by
  rw [← Option.ne_none_iff_isSome]
  constructor
  · intro h
    by_contra hc
    push_neg at hc
    exact h ((findWithIdx_eq_none p l).mpr hc)
  · rintro ⟨x, hx, hpx⟩ hn
    exact (findWithIdx_eq_none p l).mp hn x hx hpx

theorem ruleEntryModel_isSome_iff (l : List Issue) (rid : GoString) :
    (ruleEntryModel l rid).isSome ↔ rid ∈ l.map keyOfRule := by
  have h1 : (ruleEntryModel l rid).isSome =
      (findWithIdx (fun i => i.RuleID = rid) (firstOccIssues keyOfRule l)).isSome := by
    rw [ruleEntryModel]
    cases findWithIdx (fun i => i.RuleID = rid) (firstOccIssues keyOfRule l) <;> simp
  rw [h1, findWithIdx_isSome_iff]
  rw [← mem_firstOccKeys keyOfRule l rid]
  constructor
  · rintro ⟨x, hx, hp⟩
    exact hp ▸ List.mem_map_of_mem keyOfRule hx
  · intro h
    rcases List.mem_map.mp h with ⟨x, hx, hk⟩
    exact ⟨x, hx, hk⟩

theorem ruleEntryModel_append (l : List Issue) (i : Issue) (rid : GoString) :
    ruleEntryModel (l ++ [i]) rid =
      if i.RuleID ∈ l.map keyOfRule then ruleEntryModel l rid
      else
        match ruleEntryModel l rid with
        | some e => some e
        | none =>
          if i.RuleID = rid then
            some { index := ((firstOccIssues keyOfRule l).length : Int)
                   rule := parseSarifRule i (cweGet i.Cwe.ID) }
          else none := by
  rw [ruleEntryModel, firstOccIssues_append]
  by_cases hm : i.RuleID ∈ l.map keyOfRule
  · rw [if_pos ((mem_firstOccKeys keyOfRule l (keyOfRule i)).mpr hm), if_pos hm]
    rfl
  · rw [if_neg (fun hc => hm ((mem_firstOccKeys keyOfRule l (keyOfRule i)).mp hc)),
      if_neg hm, findWithIdx_append_single]
    cases hf : findWithIdx (fun j => j.RuleID = rid) (firstOccIssues keyOfRule l) with
    | some x => rw [ruleEntryModel, hf]; rfl
    | none =>
      rw [ruleEntryModel, hf]
      by_cases hr : i.RuleID = rid
      · simp [hr]
      · simp [hr]

theorem ruleEntryModel_append_of_mem (l : List Issue) (i : Issue) (rid : GoString)
    (h : rid ∈ l.map keyOfRule) :
    ruleEntryModel (l ++ [i]) rid = ruleEntryModel l rid := by
  rw [ruleEntryModel_append]
  by_cases hm : i.RuleID ∈ l.map keyOfRule
  · rw [if_pos hm]
  · rw [if_neg hm]
    cases he : ruleEntryModel l rid with
    | some e => rfl
    | none =>
      exfalso
      have := (ruleEntryModel_isSome_iff l rid).mpr h
      rw [he] at this
      simp at this

theorem ruleIndexModel_append_of_mem (l : List Issue) (i : Issue) (rid : GoString)
    (h : rid ∈ l.map keyOfRule) :
    ruleIndexModel (l ++ [i]) rid = ruleIndexModel l rid := by
  rw [ruleIndexModel, ruleIndexModel, ruleEntryModel_append_of_mem l i rid h]

theorem resultModel_append_of_mem (roots : List GoString) (l : List Issue)
    (i j : Issue) (h : j ∈ l) :
    resultModel roots (l ++ [i]) j = resultModel roots l j := by
  rw [resultModel, resultModel,
    ruleIndexModel_append_of_mem l i j.RuleID (List.mem_map_of_mem keyOfRule h)]

theorem resultsModel_append (roots : List GoString) (l : List Issue) (i : Issue) :
    resultsModel roots (l ++ [i]) =
      resultsModel roots l ++ [resultModel roots (l ++ [i]) i] := by
  rw [resultsModel, resultsModel, List.map_append]
  simp only [List.map_cons, List.map_nil]
  congr 1
  exact List.map_congr_left (fun j hj => resultModel_append_of_mem roots l i j hj)

theorem rulesModel_append (l : List Issue) (i : Issue) :
    rulesModel (l ++ [i]) =
      if i.RuleID ∈ l.map keyOfRule then rulesModel l
      else rulesModel l ++ [parseSarifRule i (cweGet i.Cwe.ID)] := by
  rw [rulesModel, firstOccIssues_append]
  by_cases hm : i.RuleID ∈ l.map keyOfRule
  · rw [if_pos ((mem_firstOccKeys keyOfRule l (keyOfRule i)).mpr hm), if_pos hm]
    rfl
  · rw [if_neg (fun hc => hm ((mem_firstOccKeys keyOfRule l (keyOfRule i)).mp hc)),
      if_neg hm, List.map_append]
    rfl

theorem taxaModel_append (l : List Issue) (i : Issue) :
    taxaModel (l ++ [i]) =
      if i.Cwe.ID ∈ l.map keyOfCwe then taxaModel l
      else taxaModel l ++ [parseSarifTaxon (cweGet i.Cwe.ID) i.Cwe.URL] := by
  rw [taxaModel, firstOccIssues_append]
  by_cases hm : i.Cwe.ID ∈ l.map keyOfCwe
  · rw [if_pos ((mem_firstOccKeys keyOfCwe l (keyOfCwe i)).mpr hm), if_pos hm]
    rfl
  · rw [if_neg (fun hc => hm ((mem_firstOccKeys keyOfCwe l (keyOfCwe i)).mp hc)),
      if_neg hm, List.map_append]
    rfl

/-! ### The loop invariant of `convertToSarifReport` -/

theorem ruleEntryModel_some_ruleId (l : List Issue) (rid : GoString) (e : RuleEntry)
    (h : ruleEntryModel l rid = some e) : e.rule.Id = rid := by
  rw [ruleEntryModel] at h
  cases hf : findWithIdx (fun i => i.RuleID = rid) (firstOccIssues keyOfRule l) with
  | none => rw [hf] at h; simp at h
  | some x =>
    rw [hf] at h
    obtain ⟨n, xi⟩ := x
    obtain ⟨hlt, hget, hp⟩ := findWithIdx_some _ _ n xi hf
    have he := Option.some.inj h
    rw [← he]
    exact hp

theorem stepWeakness_rules (st : ConvState) (issue : Issue) :
    (stepWeakness st issue).rules = st.rules := by
  rw [stepWeakness]
  by_cases h : (mapGet st.weaknesses issue.Cwe.ID).isSome <;> simp [h]

theorem stepWeakness_rulesIndices (st : ConvState) (issue : Issue) :
    (stepWeakness st issue).rulesIndices = st.rulesIndices := by
  rw [stepWeakness]
  by_cases h : (mapGet st.weaknesses issue.Cwe.ID).isSome <;> simp [h]

theorem stepWeakness_lastRuleIndex (st : ConvState) (issue : Issue) :
    (stepWeakness st issue).lastRuleIndex = st.lastRuleIndex := by
  rw [stepWeakness]
  by_cases h : (mapGet st.weaknesses issue.Cwe.ID).isSome <;> simp [h]

theorem stepWeakness_results (st : ConvState) (issue : Issue) :
    (stepWeakness st issue).results = st.results := by
  rw [stepWeakness]
  by_cases h : (mapGet st.weaknesses issue.Cwe.ID).isSome <;> simp [h]

theorem stepWeakness_weak (pre : List Issue) (st : ConvState) (issue : Issue)
    (hw : ∀ cid, mapGet st.weaknesses cid =
      if cid ∈ pre.map keyOfCwe then some (cweGet cid) else none) :
    ∀ cid, mapGet (stepWeakness st issue).weaknesses cid =
      if cid ∈ (pre ++ [issue]).map keyOfCwe then some (cweGet cid) else none := by
  intro cid
  have hmem : cid ∈ (pre ++ [issue]).map keyOfCwe ↔
      cid ∈ pre.map keyOfCwe ∨ cid = issue.Cwe.ID := by
    simp [List.map_append, keyOfCwe, eq_comm]
  rw [stepWeakness]
  by_cases hm : issue.Cwe.ID ∈ pre.map keyOfCwe
  · rw [if_pos (by rw [hw issue.Cwe.ID, if_pos hm]; rfl)]
    rw [hw cid]
    by_cases hc : cid ∈ pre.map keyOfCwe
    · rw [if_pos hc, if_pos (hmem.mpr (Or.inl hc))]
    · rw [if_neg hc, if_neg (fun hcc => hc (by
        rcases hmem.mp hcc with h1 | h2
        · exact h1
        · exact h2 ▸ hm))]
  · rw [if_neg (by rw [hw issue.Cwe.ID, if_neg hm]; simp)]
    show (if issue.Cwe.ID = cid then some (cweGet issue.Cwe.ID)
          else mapGet st.weaknesses cid) = _
    by_cases hc : issue.Cwe.ID = cid
    · rw [if_pos hc, if_pos (hmem.mpr (Or.inr hc.symm)), hc]
    · rw [if_neg hc, hw cid]
      by_cases hc2 : cid ∈ pre.map keyOfCwe
      · rw [if_pos hc2, if_pos (hmem.mpr (Or.inl hc2))]
      · rw [if_neg hc2, if_neg (fun hcc => by
          rcases hmem.mp hcc with h1 | h2
          · exact hc2 h1
          · exact hc h2.symm)]

theorem stepWeakness_taxa (pre : List Issue) (st : ConvState) (issue : Issue)
    (hw : ∀ cid, mapGet st.weaknesses cid =
      if cid ∈ pre.map keyOfCwe then some (cweGet cid) else none)
    (ht : st.taxa = taxaModel pre) :
    (stepWeakness st issue).taxa = taxaModel (pre ++ [issue]) := by
  rw [stepWeakness, taxaModel_append]
  by_cases hm : issue.Cwe.ID ∈ pre.map keyOfCwe
  · rw [if_pos (by rw [hw issue.Cwe.ID, if_pos hm]; rfl), if_pos hm]
    exact ht
  · rw [if_neg (by rw [hw issue.Cwe.ID, if_neg hm]; simp), if_neg hm]
    show st.taxa ++ [parseSarifTaxon (cweGet issue.Cwe.ID) issue.Cwe.URL] = _
    rw [ht]

theorem mapGet_cons {α : Type} (k k2 : GoString) (v : α) (t : List (GoString × α)) :
    mapGet ((k2, v) :: t) k = if k2 = k then some v else mapGet t k := rfl

theorem stepRule_spec (pre : List Issue) (st1 : ConvState) (issue : Issue)
    (hrules : st1.rules = rulesModel pre)
    (hlast : st1.lastRuleIndex = (st1.rules.length : Int) - 1)
    (hridx : ∀ rid, mapGet st1.rulesIndices rid = ruleEntryModel pre rid)
    (hweak : ∀ cid, mapGet st1.weaknesses cid =
      if cid ∈ (pre ++ [issue]).map keyOfCwe then some (cweGet cid) else none) :
    (stepRule st1 issue).1.weaknesses = st1.weaknesses ∧
    (stepRule st1 issue).1.taxa = st1.taxa ∧
    (stepRule st1 issue).1.results = st1.results ∧
    (stepRule st1 issue).1.rules = rulesModel (pre ++ [issue]) ∧
    (stepRule st1 issue).1.lastRuleIndex = ((stepRule st1 issue).1.rules.length : Int) - 1 ∧
    (∀ rid, mapGet (stepRule st1 issue).1.rulesIndices rid =
      ruleEntryModel (pre ++ [issue]) rid) ∧
    (stepRule st1 issue).2.rule.Id = issue.RuleID ∧
    (stepRule st1 issue).2.index = ruleIndexModel (pre ++ [issue]) issue.RuleID := by
  by_cases hm : issue.RuleID ∈ List.map keyOfRule pre
  · obtain ⟨e, he⟩ := Option.isSome_iff_exists.mp
      ((ruleEntryModel_isSome_iff pre issue.RuleID).mpr hm)
    have hmg : mapGet st1.rulesIndices issue.RuleID = some e := by
      rw [hridx issue.RuleID, he]
    have hstep : stepRule st1 issue = (st1, e) := by
      rw [stepRule, hmg]
    rw [hstep]
    refine ⟨rfl, rfl, rfl, ?_, ?_, ?_, ?_, ?_⟩
    · rw [rulesModel_append, if_pos hm, hrules]
    · exact hlast
    · intro rid
      rw [hridx rid, ruleEntryModel_append, if_pos hm]
    · exact ruleEntryModel_some_ruleId pre issue.RuleID e he
    · rw [ruleIndexModel, ruleEntryModel_append_of_mem pre issue issue.RuleID hm, he]
  · have hnone : ruleEntryModel pre issue.RuleID = none := by
      rcases hn : ruleEntryModel pre issue.RuleID with _ | e
      · rfl
      · exfalso
        exact hm ((ruleEntryModel_isSome_iff pre issue.RuleID).mp (by rw [hn]; rfl))
    have hmg : mapGet st1.rulesIndices issue.RuleID = none := by
      rw [hridx issue.RuleID, hnone]
    have hwcur : mapGet st1.weaknesses issue.Cwe.ID = some (cweGet issue.Cwe.ID) := by
      rw [hweak issue.Cwe.ID, if_pos (by simp [List.map_append, keyOfCwe])]
    have hlen : st1.lastRuleIndex + 1 = ((firstOccIssues keyOfRule pre).length : Int) := by
      rw [hlast, hrules, rulesModel, List.length_map]
      omega
    have hstep : stepRule st1 issue =
        ({ st1 with
            lastRuleIndex := st1.lastRuleIndex + 1
            rulesIndices := (issue.RuleID,
              { index := st1.lastRuleIndex + 1
                rule := parseSarifRule issue (cweGet issue.Cwe.ID) }) :: st1.rulesIndices
            rules := st1.rules ++ [parseSarifRule issue (cweGet issue.Cwe.ID)] },
          { index := st1.lastRuleIndex + 1
            rule := parseSarifRule issue (cweGet issue.Cwe.ID) }) := by
      rw [stepRule, hmg]
      rw [hwcur]
      rfl
    rw [hstep]
    have hrulesApp : rulesModel (pre ++ [issue]) =
        rulesModel pre ++ [parseSarifRule issue (cweGet issue.Cwe.ID)] := by
      rw [rulesModel_append, if_neg hm]
    have hnewEntry : ruleEntryModel (pre ++ [issue]) issue.RuleID =
        some { index := ((firstOccIssues keyOfRule pre).length : Int)
               rule := parseSarifRule issue (cweGet issue.Cwe.ID) } := by
      rw [ruleEntryModel_append, if_neg hm, hnone]
      simp
    refine ⟨rfl, rfl, rfl, ?_, ?_, ?_, rfl, ?_⟩
    · rw [hrulesApp, hrules]
    · show st1.lastRuleIndex + 1 = (((st1.rules ++ [_]).length : Nat) : Int) - 1
      rw [List.length_append, List.length_singleton, hlast]
      push_cast
      omega
    · intro rid
      rw [mapGet_cons]
      by_cases hr : issue.RuleID = rid
      · rw [if_pos hr, ← hr, hnewEntry, hlen]
      · rw [if_neg hr, hridx rid, ruleEntryModel_append, if_neg hm]
        rcases hrm : ruleEntryModel pre rid with _ | e
        · rw [if_neg hr]
        · rfl
    · show st1.lastRuleIndex + 1 = ruleIndexModel (pre ++ [issue]) issue.RuleID
      rw [ruleIndexModel, hnewEntry, hlen]

theorem convertStep_inv (roots : List GoString) (pre : List Issue) (st : ConvState)
    (issue : Issue) (st' : ConvState) (h : convertStep roots st issue = .ok st')
    (hinv : ConvInv roots pre st) : ConvInv roots (pre ++ [issue]) st' := by
  have hWweak := stepWeakness_weak pre st issue hinv.weak
  have hWtaxa := stepWeakness_taxa pre st issue hinv.weak hinv.taxa_eq
  obtain ⟨hSw, hSt, hSr, hSrules, hSlast, hSridx, hSid, hSidx⟩ :=
    stepRule_spec pre (stepWeakness st issue) issue
      (by rw [stepWeakness_rules]; exact hinv.rules_eq)
      (by rw [stepWeakness_lastRuleIndex, stepWeakness_rules]; exact hinv.last_eq)
      (by rw [stepWeakness_rulesIndices]; exact hinv.ridx)
      hWweak
  rw [convertStep] at h
  cases hloc : parseSarifLocation issue roots with
  | error e => rw [hloc] at h; exact absurd h (by simp)
  | ok location =>
    rw [hloc] at h
    have hst' := (Except.ok.inj h).symm
    subst hst'
    refine ⟨?_, ?_, ?_, ?_, ?_, ?_⟩
    · show (stepRule (stepWeakness st issue) issue).1.rules = _
      exact hSrules
    · show (stepRule (stepWeakness st issue) issue).1.lastRuleIndex = _
      exact hSlast
    · exact hSridx
    · intro cid
      show mapGet (stepRule (stepWeakness st issue) issue).1.weaknesses cid = _
      rw [hSw]
      exact hWweak cid
    · show (stepRule (stepWeakness st issue) issue).1.taxa = _
      rw [hSt]
      exact hWtaxa
    · show (stepRule (stepWeakness st issue) issue).1.results ++ _ = _
      rw [hSr, stepWeakness_results, hinv.results_eq, resultsModel_append]
      congr 1
      rw [resultModel]
      have hlocD : locationD roots issue = location := by
        rw [locationD, hloc]
      rw [hlocD, hSid, hSidx]

theorem convInv_init (roots : List GoString) : ConvInv roots [] initConvState := by
  refine ⟨rfl, by simp [initConvState, rulesModel, firstOccIssues], ?_, ?_, rfl, rfl⟩
  · intro rid
    rfl
  · intro cid
    simp [initConvState, mapGet]

theorem processIssues_ok_inv (roots : List GoString) :
    ∀ (l pre : List Issue) (st st' : ConvState),
      processIssues roots st l = .ok st' → ConvInv roots pre st →
      ConvInv roots (pre ++ l) st'
  | [], pre, st, st', h, hinv => by
    simp only [processIssues] at h
    have := Except.ok.inj h
    subst this
    rw [List.append_nil]
    exact hinv
  | issue :: rest, pre, st, st', h, hinv => by
    simp only [processIssues] at h
    cases hs : convertStep roots st issue with
    | error e => rw [hs] at h; exact absurd h (by simp)
    | ok st1 =>
      rw [hs] at h
      have h1 := convertStep_inv roots pre st issue st1 hs hinv
      have h2 := processIssues_ok_inv roots rest (pre ++ [issue]) st1 st' h h1
      rw [List.append_assoc] at h2
      simpa using h2

/-- What a successful conversion returns: the document assembled from the
deduplicated rule and taxa models and the per-finding result models. -/
theorem convertToSarifReport_ok_eq (roots : List GoString) (data : ReportInfo)
    (doc : SarifDocument) (h : convertToSarifReport roots data = .ok doc) :
    doc = buildSarifReport (buildSarifRun (resultsModel roots data.Issues)
      (buildSarifTaxonomies (taxaModel data.Issues))
      (buildSarifTool (buildSarifDriver (rulesModel data.Issues)))) := by
  rw [convertToSarifReport] at h
  cases hp : processIssues roots initConvState data.Issues with
  | error e => rw [hp] at h; exact absurd h (by simp)
  | ok st =>
    rw [hp] at h
    have hinv := processIssues_ok_inv roots data.Issues [] initConvState st hp
      (convInv_init roots)
    rw [List.nil_append] at hinv
    have hd := Except.ok.inj h
    rw [← hd, hinv.results_eq, hinv.taxa_eq, hinv.rules_eq]

/-! ### Lemmas about splitting, parsing and path relativization -/

theorem goSplit_ne_nil : ∀ (s : GoString) (sep : Char), goSplit s sep ≠ []
  | [], _ => by simp [goSplit]
  | c :: t, sep => by
    rw [goSplit]
    by_cases h : c = sep
    · simp [h]
    · rw [if_neg h]
      cases goSplit t sep <;> simp

theorem goSplit_sep_not_mem : ∀ (s : GoString) (sep : Char) (seg : GoString),
    seg ∈ goSplit s sep → sep ∉ seg
  | [], sep, seg, h => by
    simp [goSplit] at h
    subst h
    simp
  | c :: t, sep, seg, h => by
    rw [goSplit] at h
    by_cases hc : c = sep
    · rw [if_pos hc] at h
      rcases List.mem_cons.mp h with h1 | h2
      · subst h1; simp
      · exact goSplit_sep_not_mem t sep seg h2
    · rw [if_neg hc] at h
      cases hg : goSplit t sep with
      | nil => exact absurd hg (goSplit_ne_nil t sep)
      | cons h0 r =>
        rw [hg] at h
        rcases List.mem_cons.mp h with h1 | h2
        · subst h1
          intro hmem
          rcases List.mem_cons.mp hmem with he | hm
          · exact hc he.symm
          · exact goSplit_sep_not_mem t sep h0 (by rw [hg]; exact List.mem_cons_self h0 r) hm
        · exact goSplit_sep_not_mem t sep seg
            (by rw [hg]; exact List.mem_cons_of_mem h0 h2)

theorem goAtoi_ok_nonneg (s : GoString) (n : Int)
    (hmem : '-' ∉ s) (h : goAtoi s = .ok n) : 0 ≤ n := by
  simp only [goAtoi] at h
  split at h
  · exact absurd h (by simp)
  · split at h
    · split at h
      · exfalso
        rename_i hneg
        cases s with
        | nil => simp at hneg
        | cons c t =>
          simp only [decide_eq_true_eq] at hneg
          exact hmem (hneg ▸ List.mem_cons_self c t)
      · split at h
        · exact absurd h (by simp)
        · have hn := Except.ok.inj h
          rw [← hn]
          exact Int.natCast_nonneg _
    · exact absurd h (by simp)

theorem relativizeFold_no_match (file : GoString) :
    ∀ (roots : List GoString) (acc : GoString),
      (∀ r ∈ roots, r.isPrefixOf file = false) →
      roots.foldl
        (fun filePath rootPath =>
          if rootPath.isPrefixOf file then goReplace1 file (rootPath ++ ['/']) []
          else filePath) acc = acc
  | [], _, _ => rfl
  | r :: t, acc, h => by
    simp only [List.foldl_cons]
    rw [if_neg (by rw [h r (List.mem_cons_self r t)]; simp)]
    exact relativizeFold_no_match file t acc (fun r' hr' => h r' (List.mem_cons_of_mem r hr'))

theorem relativizePath_no_match (file : GoString) (roots : List GoString)
    (h : ∀ r ∈ roots, r.isPrefixOf file = false) :
    relativizePath file roots = [] := by
  rw [relativizePath]
  exact relativizeFold_no_match file roots [] h

theorem relativizePath_last_match (file : GoString) (l1 l2 : List GoString) (r : GoString)
    (hr : r.isPrefixOf file = true)
    (h2 : ∀ r' ∈ l2, r'.isPrefixOf file = false) :
    relativizePath file (l1 ++ r :: l2) = goReplace1 file (r ++ ['/']) [] := by
  rw [relativizePath, List.foldl_append, List.foldl_cons, if_pos hr]
  exact relativizeFold_no_match file l2 _ h2

theorem parseSarifLocation_ok_uri (issue : Issue) (roots : List GoString) (loc : Location)
    (h : parseSarifLocation issue roots = .ok loc) :
    loc.PhysicalLocation.ArtifactLocation.Uri = relativizePath issue.File roots := by
  simp only [parseSarifLocation] at h
  split at h
  · exact absurd h (by simp)
  · split at h
    · exact absurd h (by simp)
    · split at h
      · exact absurd h (by simp)
      · have hd := Except.ok.inj h
        rw [← hd]
        rfl

theorem parseSarifLocation_ok_region (issue : Issue) (roots : List GoString) (loc : Location)
    (h : parseSarifLocation issue roots = .ok loc) :
    ∃ s e c : Int,
      goAtoi ((goSplit issue.Line '-').headD []) = .ok s ∧
      (match goSplit issue.Line '-' with
       | _ :: l1 :: _ => goAtoi l1 = .ok e
       | _ => e = s) ∧
      goAtoi issue.Col = .ok c ∧ 0 ≤ s ∧ 0 ≤ e ∧
      loc.PhysicalLocation.Region =
        { StartLine := s, EndLine := e, StartColumn := c, EndColumn := c } := by
  cases hl : goSplit issue.Line '-' with
  | nil => exact absurd hl (goSplit_ne_nil issue.Line '-')
  | cons l0 rest =>
    have hm0 : '-' ∉ l0 :=
      goSplit_sep_not_mem issue.Line '-' l0 (by rw [hl]; exact List.mem_cons_self l0 rest)
    simp only [parseSarifLocation, hl, List.headD_cons] at h ⊢
    cases rest with
    | nil =>
      cases h1 : goAtoi l0 with
      | error e1 => rw [h1] at h; exact absurd h (by simp)
      | ok s =>
        rw [h1] at h
        simp only [] at h
        cases h3 : goAtoi issue.Col with
        | error e3 => rw [h3] at h; exact absurd h (by simp)
        | ok c =>
          rw [h3] at h
          simp only [] at h
          have hd := Except.ok.inj h
          have hs0 : 0 ≤ s := goAtoi_ok_nonneg l0 s hm0 h1
          exact ⟨s, s, c, rfl, rfl, rfl, hs0, hs0, by rw [← hd]; rfl⟩
    | cons l1 rest2 =>
      have hm1 : '-' ∉ l1 :=
        goSplit_sep_not_mem issue.Line '-' l1
          (by rw [hl]; exact List.mem_cons_of_mem l0 (List.mem_cons_self l1 rest2))
      cases h1 : goAtoi l0 with
      | error e1 => rw [h1] at h; exact absurd h (by simp)
      | ok s =>
        rw [h1] at h
        simp only [] at h
        cases h2 : goAtoi l1 with
        | error e2 => rw [h2] at h; exact absurd h (by simp)
        | ok e =>
          rw [h2] at h
          simp only [] at h
          cases h3 : goAtoi issue.Col with
          | error e3 => rw [h3] at h; exact absurd h (by simp)
          | ok c =>
            rw [h3] at h
            simp only [] at h
            have hd := Except.ok.inj h
            exact ⟨s, e, c, rfl, h2, rfl, goAtoi_ok_nonneg l0 s hm0 h1,
              goAtoi_ok_nonneg l1 e hm1 h2, by rw [← hd]; rfl⟩

theorem parseSarifLocation_isOk_iff (issue : Issue) (roots : List GoString) :
    (parseSarifLocation issue roots).isOk = true ↔
      ∀ t ∈ usedIntFields issue, (goAtoi t).isOk = true := by
  cases hl : goSplit issue.Line '-' with
  | nil => exact absurd hl (goSplit_ne_nil issue.Line '-')
  | cons l0 rest =>
    cases rest with
    | nil =>
      simp only [parseSarifLocation, usedIntFields, hl, List.headD_cons]
      cases h1 : goAtoi l0 <;> cases h3 : goAtoi issue.Col <;>
        simp [h1, h3, Except.isOk, Except.toBool]
    | cons l1 rest2 =>
      simp only [parseSarifLocation, usedIntFields, hl, List.headD_cons]
      cases h1 : goAtoi l0 <;> cases h2 : goAtoi l1 <;> cases h3 : goAtoi issue.Col <;>
        simp [h1, h2, h3, Except.isOk, Except.toBool]

/-! ### Error propagation through the conversion loop -/

theorem convertStep_error_iff (roots : List GoString) (st : ConvState) (issue : Issue)
    (e : NumError) :
    convertStep roots st issue = .error e ↔ parseSarifLocation issue roots = .error e := by
  simp only [convertStep]
  cases h : parseSarifLocation issue roots <;> simp

theorem processIssues_error_iff (roots : List GoString) :
    ∀ (l : List Issue) (st : ConvState) (e : NumError),
      processIssues roots st l = .error e ↔ firstLocError roots l = some e
  | [], st, e => by simp [processIssues, firstLocError]
  | issue :: rest, st, e => by
    simp only [processIssues, firstLocError]
    cases hs : convertStep roots st issue with
    | error e2 =>
      have hploc : parseSarifLocation issue roots = .error e2 :=
        (convertStep_error_iff roots st issue e2).mp hs
      rw [hploc]
      simp
    | ok st1 =>
      cases hl : parseSarifLocation issue roots with
      | error e2 =>
        exfalso
        have hbad := (convertStep_error_iff roots st issue e2).mpr hl
        rw [hs] at hbad
        exact absurd hbad (by simp)
      | ok loc =>
        exact processIssues_error_iff roots rest st1 e

theorem processIssues_isOk_iff (roots : List GoString) :
    ∀ (l : List Issue) (st : ConvState),
      (processIssues roots st l).isOk = true ↔ firstLocError roots l = none
  | [], st => by simp [processIssues, firstLocError, Except.isOk, Except.toBool]
  | issue :: rest, st => by
    simp only [processIssues, firstLocError]
    cases hs : convertStep roots st issue with
    | error e2 =>
      have hploc : parseSarifLocation issue roots = .error e2 :=
        (convertStep_error_iff roots st issue e2).mp hs
      rw [hploc]
      simp [Except.isOk, Except.toBool]
    | ok st1 =>
      cases hl : parseSarifLocation issue roots with
      | error e2 =>
        exfalso
        have hbad := (convertStep_error_iff roots st issue e2).mpr hl
        rw [hs] at hbad
        exact absurd hbad (by simp)
      | ok loc =>
        exact processIssues_isOk_iff roots rest st1

theorem firstLocError_eq_none_iff (roots : List GoString) :
    ∀ l : List Issue,
      firstLocError roots l = none ↔ ∀ i ∈ l, (parseSarifLocation i roots).isOk = true
  | [] => by simp [firstLocError]
  | issue :: rest => by
    simp only [firstLocError]
    cases hl : parseSarifLocation issue roots with
    | error e => simp [hl, Except.isOk, Except.toBool]
    | ok loc =>
      rw [firstLocError_eq_none_iff roots rest]
      simp [hl, Except.isOk, Except.toBool]

theorem convertToSarifReport_error_iff (roots : List GoString) (data : ReportInfo)
    (e : NumError) :
    convertToSarifReport roots data = .error e ↔
      firstLocError roots data.Issues = some e := by
  rw [convertToSarifReport]
  cases hp : processIssues roots initConvState data.Issues with
  | error e2 =>
    have h2 := (processIssues_error_iff roots data.Issues initConvState e2).mp hp
    rw [h2]
    simp
  | ok st =>
    have h2 : firstLocError roots data.Issues = none :=
      (processIssues_isOk_iff roots data.Issues initConvState).mp (by rw [hp]; rfl)
    rw [h2]
    simp

theorem convertToSarifReport_isOk_iff (roots : List GoString) (data : ReportInfo) :
    (convertToSarifReport roots data).isOk = true ↔
      firstLocError roots data.Issues = none := by
  rw [convertToSarifReport]
  cases hp : processIssues roots initConvState data.Issues with
  | error e2 =>
    have h2 := (processIssues_error_iff roots data.Issues initConvState e2).mp hp
    rw [h2]
    simp [Except.isOk, Except.toBool]
  | ok st =>
    have h2 : firstLocError roots data.Issues = none :=
      (processIssues_isOk_iff roots data.Issues initConvState).mp (by rw [hp]; rfl)
    rw [h2]
    simp [Except.isOk, Except.toBool]

/-! ### Locating the unique descriptor for a key -/

theorem find?_foldl_firstOcc (key : Issue → GoString) (k : GoString) :
    ∀ (l acc : List Issue),
      (l.foldl (firstOccStep key) acc).find? (fun i => key i == k) =
        (acc.find? (fun i => key i == k)).or (l.find? (fun i => key i == k))
  | [], acc => by simp
  | i :: t, acc => by
    simp only [List.foldl_cons]
    rw [firstOccStep]
    by_cases hm : key i ∈ acc.map key
    · rw [if_pos hm, find?_foldl_firstOcc key k t acc, List.find?_cons]
      by_cases hk : (key i == k) = true
      · have hkk : k ∈ acc.map key := (beq_iff_eq.mp hk) ▸ hm
        have hsome : (acc.find? (fun i => key i == k)).isSome = true := by
          rw [List.find?_isSome]
          rcases List.mem_map.mp hkk with ⟨x, hx, hke⟩
          exact ⟨x, hx, by rw [beq_iff_eq]; exact hke⟩
        obtain ⟨y, hy⟩ := Option.isSome_iff_exists.mp hsome
        rw [hy, hk]
        simp [Option.or]
      · have hkf : (key i == k) = false := by
          cases hb : (key i == k)
          · rfl
          · exact absurd hb hk
        rw [hkf]
    · rw [if_neg hm, find?_foldl_firstOcc key k t (acc ++ [i]), List.find?_append,
        Option.or_assoc, List.find?_cons]
      congr 1
      rw [List.find?_cons]
      cases hb : (key i == k) <;> simp [List.find?_nil]

theorem find?_firstOccIssues (key : Issue → GoString) (l : List Issue) (k : GoString) :
    (firstOccIssues key l).find? (fun i => key i == k) =
      l.find? (fun i => key i == k) := by
  rw [firstOccIssues, find?_foldl_firstOcc]
  simp

theorem filter_eq_singleton_of_nodup_keys (key : Issue → GoString) :
    ∀ (m : List Issue), (m.map key).Nodup → ∀ x ∈ m,
      m.filter (fun i => key i == key x) = [x]
  | [], _, x, hx => absurd hx (by simp)
  | i :: t, hnd, x, hx => by
    simp only [List.map_cons, List.nodup_cons] at hnd
    obtain ⟨hki, hndt⟩ := hnd
    rcases List.mem_cons.mp hx with he | hm
    · subst he
      rw [List.filter_cons, if_pos (by simp)]
      have ht : t.filter (fun i => key i == key x) = [] := by
        rw [List.filter_eq_nil_iff]
        intro a ha
        simp only [beq_iff_eq]
        intro hk
        exact hki (hk ▸ List.mem_map_of_mem key ha)
      rw [ht]
    · have hne : ¬(key i == key x) = true := by
        simp only [beq_iff_eq]
        intro hk
        exact hki (hk ▸ List.mem_map_of_mem key hm)
      rw [List.filter_cons, if_neg hne]
      exact filter_eq_singleton_of_nodup_keys key t hndt x hm

theorem find?_eq_some_self_of_nodup_keys (key : Issue → GoString) :
    ∀ (m : List Issue), (m.map key).Nodup → ∀ x ∈ m,
      m.find? (fun j => key j == key x) = some x
  | [], _, x, hx => absurd hx (by simp)
  | i :: t, hnd, x, hx => by
    simp only [List.map_cons, List.nodup_cons] at hnd
    obtain ⟨hki, hndt⟩ := hnd
    rcases List.mem_cons.mp hx with he | hm
    · subst he
      rw [List.find?_cons]
      simp
    · have hne : (key i == key x) = false := by
        rw [beq_eq_false_iff_ne]
        intro hk
        exact hki (hk ▸ List.mem_map_of_mem key hm)
      rw [List.find?_cons, hne]
      exact find?_eq_some_self_of_nodup_keys key t hndt x hm

/-! ### The claims -/

/-- C5: the severity-to-SARIF-level mapping is a total function on strings:
`"LOW"` yields `"warning"`, `"MEDIUM"` and `"HIGH"` yield `"error"`, every
other string (the empty string included) yields `"note"`; as a total Lean
function it cannot fail. -/
theorem severity_mapping_total :
    getSarifLevel (gs "LOW") = sarifWarning ∧
    getSarifLevel (gs "MEDIUM") = sarifError ∧
    getSarifLevel (gs "HIGH") = sarifError ∧
    ∀ s : GoString, s ≠ gs "LOW" → s ≠ gs "MEDIUM" → s ≠ gs "HIGH" →
      getSarifLevel s = sarifNote := by
  refine ⟨rfl, rfl, rfl, ?_⟩
  intro s h1 h2 h3
  rw [getSarifLevel, if_neg h1, if_neg h2, if_neg h3]

/-- Witness for C5 at the concrete severities `"UNDEFINED"` and `""`. -/
theorem severity_mapping_total_witness :
    getSarifLevel (gs "UNDEFINED") = sarifNote :=
  severity_mapping_total.2.2.2 (gs "UNDEFINED") (by decide) (by decide) (by decide)

/-- C2 counterexample: the spec's own example input — file
`/home/u/proj/pkg/file.go` with the single non-matching root `/other` —
yields the empty URI, not the original path unchanged. -/
theorem uri_unmatched_root_counterexample :
    (convertToSarifReport [gs "/other"] { Issues := [issueA] }).map
        (fun doc => doc.Runs.map (fun run => run.Results.map
          (fun res => res.Locations.map
            (fun loc => loc.PhysicalLocation.ArtifactLocation.Uri)))) =
      .ok [[[([] : GoString)]]] ∧ issueA.File ≠ ([] : GoString) := by
  exact ⟨rfl, by decide⟩

/-- C2 (amended): for every finding whose file path has no root of the
root-path list as a prefix, the URI recorded in the parsed location is the
EMPTY string — the `filePath` variable keeps its zero value, the original
path is not preserved. -/
theorem uri_empty_when_no_root_matches (issue : Issue) (roots : List GoString)
    (loc : Location) (hroots : ∀ r ∈ roots, r.isPrefixOf issue.File = false)
    (h : parseSarifLocation issue roots = .ok loc) :
    loc.PhysicalLocation.ArtifactLocation.Uri = [] := by
  rw [parseSarifLocation_ok_uri issue roots loc h]
  exact relativizePath_no_match issue.File roots hroots

/-- Witness for the amended C2 at a concrete finding and root list. -/
theorem uri_empty_when_no_root_matches_witness :
    ((parseSarifLocation issueA [gs "/other"]).toOption.getD
        defaultLocation).PhysicalLocation.ArtifactLocation.Uri = [] :=
  uri_empty_when_no_root_matches issueA [gs "/other"]
    ((parseSarifLocation issueA [gs "/other"]).toOption.getD defaultLocation)
    (by decide) (by rfl)

/-- C3 counterexample: with root list `["/a", "/a/b"]`, both roots are
prefixes of `/a/b/c.go`; the URI is the one produced by the LATER root
(`c.go`), not the first (`b/c.go`) — a later matching root does change the
result. -/
theorem root_first_match_counterexample :
    relativizePath (gs "/a/b/c.go") [gs "/a"] = gs "b/c.go" ∧
    relativizePath (gs "/a/b/c.go") [gs "/a", gs "/a/b"] = gs "c.go" ∧
    (gs "c.go" : GoString) ≠ gs "b/c.go" :=
  ⟨rfl, rfl, by decide⟩

/-- C3 (amended): the LAST root in caller-given order that is a literal
prefix of the path is the one applied (the first occurrence of `"<root>/"`
is removed once, recomputed from the original path); roots EARLIER in the
list that also match do not affect the resulting URI. -/
theorem root_last_match_wins (file : GoString) (l1 l2 : List GoString) (r : GoString)
    (hr : r.isPrefixOf file = true)
    (h2 : ∀ rx ∈ l2, rx.isPrefixOf file = false) :
    relativizePath file (l1 ++ r :: l2) = goReplace1 file (r ++ ['/']) [] :=
  relativizePath_last_match file l1 l2 r hr h2

/-- Witness for the amended C3: the later root `/a/b` decides the URI even
though `/a` also matches. -/
theorem root_last_match_wins_witness :
    relativizePath (gs "/a/b/c.go") [gs "/a", gs "/a/b"] =
      goReplace1 (gs "/a/b/c.go") (gs "/a/b" ++ ['/']) [] :=
  root_last_match_wins (gs "/a/b/c.go") [gs "/a"] [] (gs "/a/b") (by decide) (by decide)

/-- C6: location parsing splits the line spec on the dash: the first segment
is the start line and, when a second segment exists, it is the end line,
otherwise the end line equals the start line; used segments that parse are
non-negative, a used segment or column that fails integer parsing makes the
location parse fail, and the single column value is stored as both the
region's start and end column. -/
theorem location_parsing_spec (issue : Issue) (roots : List GoString) :
    (∀ loc, parseSarifLocation issue roots = .ok loc →
      ∃ s e c : Int,
        goAtoi ((goSplit issue.Line '-').headD []) = .ok s ∧
        (match goSplit issue.Line '-' with
         | _ :: l1 :: _ => goAtoi l1 = .ok e
         | _ => e = s) ∧
        goAtoi issue.Col = .ok c ∧ 0 ≤ s ∧ 0 ≤ e ∧
        loc.PhysicalLocation.Region =
          { StartLine := s, EndLine := e, StartColumn := c, EndColumn := c }) ∧
    ((∃ t ∈ usedIntFields issue, (goAtoi t).isOk = false) →
      ∃ err, parseSarifLocation issue roots = .error err) := by
  constructor
  · intro loc h
    exact parseSarifLocation_ok_region issue roots loc h
  · rintro ⟨t, ht, hbad⟩
    cases hp : parseSarifLocation issue roots with
    | error err => exact ⟨err, rfl⟩
    | ok loc =>
      exfalso
      have hok : (parseSarifLocation issue roots).isOk = true := by rw [hp]; rfl
      have hall := (parseSarifLocation_isOk_iff issue roots).mp hok t ht
      rw [hbad] at hall
      exact absurd hall (by simp)

/-- Witness for C6: the unparseable line spec `"x"` makes the location parse
fail. -/
theorem location_parsing_spec_witness :
    ∃ err, parseSarifLocation issueBadLine [] = .error err :=
  (location_parsing_spec issueBadLine []).2 ⟨gs "x", by decide, by rfl⟩

/-- C4 counterexample: the finding with line spec `"5-6-bad"` carries a
line-spec segment (`"bad"`) that is not a valid integer, yet the conversion
succeeds — segments beyond the second are never parsed, so "error iff some
line-spec segment is invalid" fails as stated. -/
theorem conversion_error_iff_counterexample :
    (convertToSarifReport [] dataTrailing).isOk = true ∧
    gs "bad" ∈ goSplit issueTrailing.Line '-' ∧
    (goAtoi (gs "bad")).isOk = false :=
  ⟨rfl, by decide, rfl⟩

/-- C4 (amended): the conversion returns an error if and only if some
finding's CONSUMED line-spec segment (the first, or the second when the
split yields more than one — later segments are ignored) or column text is
not a valid integer; the error propagated is, verbatim, the one of the first
offending finding in input order, and the `Except` result shape means no
document accompanies an error; when every consumed field parses, the
conversion succeeds. -/
theorem conversion_error_handling (roots : List GoString) (data : ReportInfo) :
    (∀ e, convertToSarifReport roots data = .error e ↔
        firstLocError roots data.Issues = some e) ∧
    ((convertToSarifReport roots data).isOk = true ↔
      ∀ i ∈ data.Issues, ∀ t ∈ usedIntFields i, (goAtoi t).isOk = true) := by
  constructor
  · intro e
    exact convertToSarifReport_error_iff roots data e
  · rw [convertToSarifReport_isOk_iff, firstLocError_eq_none_iff]
    constructor
    · intro h i hi t ht
      exact (parseSarifLocation_isOk_iff i roots).mp (h i hi) t ht
    · intro h i hi
      exact (parseSarifLocation_isOk_iff i roots).mpr (h i hi)

/-- Witness for the amended C4: the batch whose second finding has line spec
`"x"` fails with exactly that finding's syntax error. -/
theorem conversion_error_handling_witness :
    convertToSarifReport [] dataBad = .error (.syntaxError (gs "x")) :=
  ((conversion_error_handling [] dataBad).1 (.syntaxError (gs "x"))).mpr (by rfl)

/-- C9: the conversion is deterministic — as a pure function of the root
list and the finding sequence, equal inputs yield structurally identical
documents — and every content-derived identifier is computed by the fixed
content-keyed `uuid3` scheme (fixed namespace plus name string), with no
randomness in the model. -/
theorem conversion_deterministic (roots : List GoString) (data : ReportInfo)
    (d1 d2 : SarifDocument)
    (h1 : convertToSarifReport roots data = .ok d1)
    (h2 : convertToSarifReport roots data = .ok d2) :
    d1 = d2 ∧
    (∀ run ∈ d1.Runs, ∀ comp ∈ run.Taxonomies,
      comp.Guid = uuid3 cweAcronym ∧
      ∀ taxon ∈ comp.Taxa, taxon.Guid = uuid3 taxon.Name) ∧
    (∀ run ∈ d1.Runs, ∀ tcr ∈ run.Tool.Driver.SupportedTaxonomies,
      tcr.Guid = uuid3 tcr.Name) := by
  have hd := convertToSarifReport_ok_eq roots data d1 h1
  refine ⟨?_, ?_, ?_⟩
  · rw [h1] at h2
    exact Except.ok.inj h2
  · intro run hrun comp hcomp
    rw [hd] at hrun
    simp only [buildSarifReport, List.mem_singleton] at hrun
    subst hrun
    simp only [buildSarifRun, buildSarifTaxonomies, List.mem_singleton] at hcomp
    subst hcomp
    refine ⟨rfl, ?_⟩
    intro taxon htaxon
    have htaxa : taxon ∈ taxaModel data.Issues := htaxon
    rw [taxaModel] at htaxa
    rcases List.mem_map.mp htaxa with ⟨i, hi, hti⟩
    rw [← hti]
    rfl
  · intro run hrun tcr htcr
    rw [hd] at hrun
    simp only [buildSarifReport, List.mem_singleton] at hrun
    subst hrun
    simp only [buildSarifRun, buildSarifTool, buildSarifDriver,
      List.mem_singleton] at htcr
    subst htcr
    rfl

/-- Witness for C9 at the concrete four-finding batch. -/
theorem conversion_deterministic_witness :
    convResultD [] dataABC = convResultD [] dataABC ∧
    (∀ run ∈ (convResultD [] dataABC).Runs, ∀ comp ∈ run.Taxonomies,
      comp.Guid = uuid3 cweAcronym ∧
      ∀ taxon ∈ comp.Taxa, taxon.Guid = uuid3 taxon.Name) ∧
    (∀ run ∈ (convResultD [] dataABC).Runs,
      ∀ tcr ∈ run.Tool.Driver.SupportedTaxonomies, tcr.Guid = uuid3 tcr.Name) :=
  conversion_deterministic [] dataABC (convResultD [] dataABC)
    (convResultD [] dataABC) (by rfl) (by rfl)

/-- C1: a successful conversion yields exactly one rule descriptor per
distinct rule identifier, appended in first-occurrence order with zero-based
indices that are never reassigned (the rule list equals the first-occurrence
model), and every result's recorded rule index is a valid position in the
final rule list whose descriptor carries the result's rule identifier. -/
theorem get_map_eq {A B : Type} (f : A → B) (l : List A) (n : Nat)
    (h1 : n < (l.map f).length) (h2 : n < l.length) :
    (l.map f).get ⟨n, h1⟩ = f (l.get ⟨n, h2⟩) := by
  simp [List.get_eq_getElem, List.getElem_map]

theorem rule_registry_invariant (roots : List GoString) (data : ReportInfo)
    (doc : SarifDocument) (h : convertToSarifReport roots data = .ok doc) :
    ∃ run, doc.Runs = [run] ∧
      run.Tool.Driver.Rules = rulesModel data.Issues ∧
      run.Tool.Driver.Rules.map (fun r => r.Id) = firstOccKeys keyOfRule data.Issues ∧
      (firstOccKeys keyOfRule data.Issues).Nodup ∧
      (∀ k, k ∈ firstOccKeys keyOfRule data.Issues ↔ k ∈ data.Issues.map keyOfRule) ∧
      ∀ res ∈ run.Results, 0 ≤ res.RuleIndex ∧
        ∃ hlt : res.RuleIndex.toNat < run.Tool.Driver.Rules.length,
          (run.Tool.Driver.Rules.get ⟨res.RuleIndex.toNat, hlt⟩).Id = res.RuleId := by
  have hd := convertToSarifReport_ok_eq roots data doc h
  subst hd
  refine ⟨_, rfl, rfl, ?_, nodup_firstOccKeys keyOfRule data.Issues,
    fun k => mem_firstOccKeys keyOfRule data.Issues k, ?_⟩
  · show (rulesModel data.Issues).map (fun r => r.Id) = _
    rw [rulesModel, List.map_map]
    rfl
  · intro res hres
    have hres2 : res ∈ resultsModel roots data.Issues := hres
    rcases List.mem_map.mp hres2 with ⟨i, hi, heq⟩
    have hmem : i.RuleID ∈ data.Issues.map keyOfRule :=
      List.mem_map_of_mem keyOfRule hi
    have hsome := (ruleEntryModel_isSome_iff data.Issues i.RuleID).mpr hmem
    rw [ruleEntryModel] at hsome
    cases hf : findWithIdx (fun j => j.RuleID = i.RuleID)
        (firstOccIssues keyOfRule data.Issues) with
    | none => rw [hf] at hsome; simp at hsome
    | some x =>
      obtain ⟨n, xi⟩ := x
      obtain ⟨hlt, hget, hp⟩ := findWithIdx_some _ _ n xi hf
      have hriv : ruleIndexModel data.Issues i.RuleID = (n : Int) := by
        rw [ruleIndexModel, ruleEntryModel, hf]
        rfl
      have hidx : res.RuleIndex = (n : Int) := by
        rw [← heq]
        exact hriv
      have hrid : res.RuleId = i.RuleID := by
        rw [← heq]
        rfl
      have htn : res.RuleIndex.toNat = n := by
        rw [hidx]
        simp
      constructor
      · rw [hidx]
        exact Int.natCast_nonneg n
      · subst htn
        have hb : res.RuleIndex.toNat < (rulesModel data.Issues).length := by
          rw [rulesModel, List.length_map]
          exact hlt
        refine ⟨hb, ?_⟩
        show (((firstOccIssues keyOfRule data.Issues).map
            (fun j => parseSarifRule j (cweGet j.Cwe.ID))).get
            ⟨res.RuleIndex.toNat, hb⟩).Id = res.RuleId
        rw [get_map_eq (fun j => parseSarifRule j (cweGet j.Cwe.ID))
          (firstOccIssues keyOfRule data.Issues) res.RuleIndex.toNat hb hlt, hget, hrid]
        exact hp

/-- Witness for C1 at the concrete four-finding batch. -/
theorem rule_registry_invariant_witness :
    ∃ run, (convResultD [] dataABC).Runs = [run] ∧
      run.Tool.Driver.Rules = rulesModel dataABC.Issues ∧
      run.Tool.Driver.Rules.map (fun r => r.Id) = firstOccKeys keyOfRule dataABC.Issues ∧
      (firstOccKeys keyOfRule dataABC.Issues).Nodup ∧
      (∀ k, k ∈ firstOccKeys keyOfRule dataABC.Issues ↔
        k ∈ dataABC.Issues.map keyOfRule) ∧
      ∀ res ∈ run.Results, 0 ≤ res.RuleIndex ∧
        ∃ hlt : res.RuleIndex.toNat < run.Tool.Driver.Rules.length,
          (run.Tool.Driver.Rules.get ⟨res.RuleIndex.toNat, hlt⟩).Id = res.RuleId :=
  rule_registry_invariant [] dataABC (convResultD [] dataABC) (by rfl)

/-- C7: a successful conversion's taxonomy component holds exactly one taxon
per distinct weakness identifier, in first-occurrence order, each taxon built
from the catalog entry and the reference URL of the FIRST finding carrying
that weakness identifier (each retained finding is the `find?`-first one);
later findings with the same identifier change nothing. -/
theorem taxonomy_registry_invariant (roots : List GoString) (data : ReportInfo)
    (doc : SarifDocument) (h : convertToSarifReport roots data = .ok doc) :
    ∃ run comp, doc.Runs = [run] ∧ run.Taxonomies = [comp] ∧
      comp.Taxa = (firstOccIssues keyOfCwe data.Issues).map
        (fun i => parseSarifTaxon (cweGet i.Cwe.ID) i.Cwe.URL) ∧
      (firstOccKeys keyOfCwe data.Issues).Nodup ∧
      (∀ k, k ∈ firstOccKeys keyOfCwe data.Issues ↔ k ∈ data.Issues.map keyOfCwe) ∧
      ∀ i ∈ firstOccIssues keyOfCwe data.Issues,
        data.Issues.find? (fun j => keyOfCwe j == keyOfCwe i) = some i := by
  have hd := convertToSarifReport_ok_eq roots data doc h
  subst hd
  refine ⟨_, _, rfl, rfl, rfl, nodup_firstOccKeys keyOfCwe data.Issues,
    fun k => mem_firstOccKeys keyOfCwe data.Issues k, ?_⟩
  intro i hi
  rw [← find?_firstOccIssues keyOfCwe data.Issues (keyOfCwe i)]
  exact find?_eq_some_self_of_nodup_keys keyOfCwe
    (firstOccIssues keyOfCwe data.Issues)
    (nodup_firstOccKeys keyOfCwe data.Issues) i hi

/-- Witness for C7 at the concrete four-finding batch (weakness 798 appears
twice with different URLs; the first URL is kept). -/
theorem taxonomy_registry_invariant_witness :
    ∃ run comp, (convResultD [] dataABC).Runs = [run] ∧ run.Taxonomies = [comp] ∧
      comp.Taxa = (firstOccIssues keyOfCwe dataABC.Issues).map
        (fun i => parseSarifTaxon (cweGet i.Cwe.ID) i.Cwe.URL) ∧
      (firstOccKeys keyOfCwe dataABC.Issues).Nodup ∧
      (∀ k, k ∈ firstOccKeys keyOfCwe dataABC.Issues ↔
        k ∈ dataABC.Issues.map keyOfCwe) ∧
      ∀ i ∈ firstOccIssues keyOfCwe dataABC.Issues,
        dataABC.Issues.find? (fun j => keyOfCwe j == keyOfCwe i) = some i :=
  taxonomy_registry_invariant [] dataABC (convResultD [] dataABC) (by rfl)

/-- C8: when two findings in the input share a rule identifier but carry
different weakness identifiers, the final rule list holds a single descriptor
for that identifier, built entirely from the first finding carrying it and
that finding's own weakness; the later finding alters nothing. -/
theorem duplicate_rule_first_weakness (roots : List GoString) (data : ReportInfo)
    (doc : SarifDocument) (j k : Nat)
    (hj : j < data.Issues.length) (hk : k < data.Issues.length) (hjk : j < k)
    (hsame : (data.Issues.get ⟨j, hj⟩).RuleID = (data.Issues.get ⟨k, hk⟩).RuleID)
    (hdiff : (data.Issues.get ⟨j, hj⟩).Cwe.ID ≠ (data.Issues.get ⟨k, hk⟩).Cwe.ID)
    (h : convertToSarifReport roots data = .ok doc) :
    ∃ run i0, doc.Runs = [run] ∧
      data.Issues.find?
          (fun i => keyOfRule i == (data.Issues.get ⟨j, hj⟩).RuleID) = some i0 ∧
      run.Tool.Driver.Rules.filter
          (fun r => r.Id == (data.Issues.get ⟨j, hj⟩).RuleID) =
        [parseSarifRule i0 (cweGet i0.Cwe.ID)] := by
  have hd := convertToSarifReport_ok_eq roots data doc h
  subst hd
  have hmem : (data.Issues.get ⟨j, hj⟩).RuleID ∈ data.Issues.map keyOfRule :=
    List.mem_map_of_mem keyOfRule (data.Issues.get_mem j hj)
  have hmem2 : (data.Issues.get ⟨j, hj⟩).RuleID ∈
      (firstOccIssues keyOfRule data.Issues).map keyOfRule :=
    (mem_firstOccKeys keyOfRule data.Issues _).mpr hmem
  have hfind : ((firstOccIssues keyOfRule data.Issues).find?
      (fun i => keyOfRule i == (data.Issues.get ⟨j, hj⟩).RuleID)).isSome = true := by
    rw [List.find?_isSome]
    rcases List.mem_map.mp hmem2 with ⟨x, hx, hke⟩
    exact ⟨x, hx, by rw [beq_iff_eq]; exact hke⟩
  obtain ⟨i0, hi0⟩ := Option.isSome_iff_exists.mp hfind
  have hi0mem : i0 ∈ firstOccIssues keyOfRule data.Issues :=
    List.mem_of_find?_eq_some hi0
  have hp0 := @List.find?_some Issue
    (fun i => keyOfRule i == (data.Issues.get ⟨j, hj⟩).RuleID) i0
    (firstOccIssues keyOfRule data.Issues) hi0
  have hi0key : keyOfRule i0 = (data.Issues.get ⟨j, hj⟩).RuleID := beq_iff_eq.mp hp0
  refine ⟨_, i0, rfl, ?_, ?_⟩
  · rw [← find?_firstOccIssues keyOfRule data.Issues]
    exact hi0
  · show ((firstOccIssues keyOfRule data.Issues).map
        (fun i => parseSarifRule i (cweGet i.Cwe.ID))).filter
        (fun r => r.Id == (data.Issues.get ⟨j, hj⟩).RuleID) = _
    rw [List.filter_map]
    have hfg : ((fun r : ReportingDescriptor =>
        r.Id == (data.Issues.get ⟨j, hj⟩).RuleID) ∘
        (fun i => parseSarifRule i (cweGet i.Cwe.ID))) =
        (fun i => keyOfRule i == keyOfRule i0) := by
      funext i
      show (i.RuleID == (data.Issues.get ⟨j, hj⟩).RuleID) = _
      rw [hi0key]
      rfl
    rw [hfg, filter_eq_singleton_of_nodup_keys keyOfRule
      (firstOccIssues keyOfRule data.Issues)
      (nodup_firstOccKeys keyOfRule data.Issues) i0 hi0mem]
    rfl

/-- Witness for C8: findings 1 and 2 of the sample batch share rule G102
with weaknesses 200 and 327; the single G102 descriptor is built from the
first of them. -/
theorem duplicate_rule_first_weakness_witness :
    ∃ run i0, (convResultD [] dataABC).Runs = [run] ∧
      dataABC.Issues.find?
          (fun i => keyOfRule i == (dataABC.Issues.get ⟨1, by decide⟩).RuleID) = some i0 ∧
      run.Tool.Driver.Rules.filter
          (fun r => r.Id == (dataABC.Issues.get ⟨1, by decide⟩).RuleID) =
        [parseSarifRule i0 (cweGet i0.Cwe.ID)] :=
  duplicate_rule_first_weakness [] dataABC (convResultD [] dataABC) 1 2
    (by decide) (by decide) (by decide) (by decide) (by decide) (by rfl)

/-- C10: in a successful conversion, every rule descriptor's taxonomy
relationship target is referentially consistent with the taxa list — its
target identifier equals some taxon's identifier and its target `Guid`
equals that same taxon's `Guid`, both being derived from the same weakness's
name by the same content-keyed identifier function. -/
theorem relationship_taxa_consistent (roots : List GoString) (data : ReportInfo)
    (doc : SarifDocument) (h : convertToSarifReport roots data = .ok doc) :
    ∃ run comp, doc.Runs = [run] ∧ run.Taxonomies = [comp] ∧
      ∀ rule ∈ run.Tool.Driver.Rules, ∀ rel ∈ rule.Relationships,
        ∃ taxon ∈ comp.Taxa, rel.Target.Id = taxon.Id ∧
          rel.Target.Guid = taxon.Guid := by
  have hd := convertToSarifReport_ok_eq roots data doc h
  subst hd
  refine ⟨_, _, rfl, rfl, ?_⟩
  intro rule hrule rel hrel
  have hrule2 : rule ∈ rulesModel data.Issues := hrule
  rw [rulesModel] at hrule2
  rcases List.mem_map.mp hrule2 with ⟨i, hi, hrule_eq⟩
  subst hrule_eq
  simp only [parseSarifRule, List.mem_singleton] at hrel
  subst hrel
  have hmem : i.Cwe.ID ∈ data.Issues.map keyOfCwe :=
    List.mem_map_of_mem keyOfCwe (firstOccIssues_subset keyOfRule data.Issues i hi)
  have hmem2 : i.Cwe.ID ∈ firstOccKeys keyOfCwe data.Issues :=
    (mem_firstOccKeys keyOfCwe data.Issues i.Cwe.ID).mpr hmem
  rw [firstOccKeys] at hmem2
  rcases List.mem_map.mp hmem2 with ⟨x, hx, hxk⟩
  have hxk2 : x.Cwe.ID = i.Cwe.ID := hxk
  refine ⟨parseSarifTaxon (cweGet x.Cwe.ID) x.Cwe.URL,
    List.mem_map_of_mem (fun i => parseSarifTaxon (cweGet i.Cwe.ID) i.Cwe.URL) hx,
    ?_, ?_⟩
  · show (cweGet i.Cwe.ID).ID = (cweGet x.Cwe.ID).ID
    rw [hxk2]
  · show uuid3 (cweGet i.Cwe.ID).Name = uuid3 (cweGet x.Cwe.ID).Name
    rw [hxk2]

/-- Witness for C10 at the concrete four-finding batch. -/
theorem relationship_taxa_consistent_witness :
    ∃ run comp, (convResultD [] dataABC).Runs = [run] ∧ run.Taxonomies = [comp] ∧
      ∀ rule ∈ run.Tool.Driver.Rules, ∀ rel ∈ rule.Relationships,
        ∃ taxon ∈ comp.Taxa, rel.Target.Id = taxon.Id ∧
          rel.Target.Guid = taxon.Guid :=
  relationship_taxa_consistent [] dataABC (convResultD [] dataABC) (by rfl)
